import Mathlib

/-!
# resume-generator: markdown → HTML → PDF pipeline (`resume.go`)

A shallow embedding of the pure parts of `resume.go` and of its two effectful
procedures (`findChrome`, `writePDF`) over an explicit environment.

Texts are sequences of Unicode code points (`List Char`): the program reads UTF-8
files, and on valid UTF-8 the Go functions used here (`strings.HasPrefix`,
`strings.Split`, `strings.Join`, `strings.TrimSpace`, the `regexp` matcher) act on
the code-point sequence exactly as the definitions below do.  File-system paths
and log/error messages are `String`s.
-/

namespace Resume

/-- A text: the code points of a Go `string` holding valid UTF-8. -/
abbrev Text := List Char

/-! ## Go library functions used by the program -/

/-- Go `unicode.IsSpace`: the Latin-1 cases `'\t' '\n' '\v' '\f' '\r' ' '`, U+0085,
U+00A0, and the remaining code points of the `White_Space` table. -/
def isSpace (c : Char) : Bool :=
  let n := c.toNat
  (0x09 ≤ n && n ≤ 0x0D) || n == 0x20 || n == 0x85 || n == 0xA0 || n == 0x1680 ||
  (0x2000 ≤ n && n ≤ 0x200A) || n == 0x2028 || n == 0x2029 || n == 0x202F ||
  n == 0x205F || n == 0x3000

/-- Go `strings.TrimSpace`: drop the leading and the trailing white space. -/
def trimSpace (s : Text) : Text :=
  ((s.dropWhile isSpace).reverse.dropWhile isSpace).reverse

/-- Go `strings.HasPrefix`. -/
def hasPrefix (s p : Text) : Bool := p.isPrefixOf s

/-- Go `strings.Split(s, "\n")`: the pieces between line feeds; never empty. -/
def splitLines : Text → List Text
  | [] => [[]]
  | c :: cs =>
    if c = '\n' then [] :: splitLines cs
    else
      match splitLines cs with
      | [] => [[c]]
      | l :: ls => (c :: l) :: ls

/-- Go `strings.Join(elems, "\n")`. -/
def joinLines : List Text → Text
  | [] => []
  | [l] => l
  | l :: m :: ls => l ++ '\n' :: joinLines (m :: ls)

/-! ## `stripFrontmatter` -/

/-- The frontmatter delimiter `---`. -/
def delim : Text := ['-', '-', '-']

/-- The `for i := …; i < len(lines); i++` loop of `stripFrontmatter`, started at
index `i` on the lines from index `i` on: the index of the first line that equals
`---` once trimmed, or `-1` (the initial `endIdx`) when the loop runs out. -/
def findEnd : List Text → Nat → Int
  | [], _ => -1
  | l :: ls, i => if trimSpace l = delim then (i : Int) else findEnd ls (i + 1)

/-- The function `stripFrontmatter` of `resume.go`. -/
def stripFrontmatter (md : Text) : Text :=
  if !hasPrefix md delim then md
  else
    let lines := splitLines md
    let endIdx := findEnd (lines.drop 1) 1
    if endIdx > 0 ∧ endIdx < (lines.length : Int) - 1 then
      joinLines (lines.drop (endIdx + 1).toNat)
    else md

/-- A text carries a strippable frontmatter block: it starts with `---` and some
line that is neither its first nor its last equals `---` once trimmed. -/
def Strippable (t : Text) : Prop :=
  hasPrefix t delim = true ∧
  ∃ pre d post, splitLines t = pre ++ d :: post ∧ pre ≠ [] ∧ post ≠ [] ∧
    trimSpace d = delim

/-! ## `extractTitle`

The pattern `(?m)^#[^#]\s*(.+)$` is kept as a list of items and run by a
backtracking matcher, which finds what Go's `regexp` finds: the leftmost match, and
among those the one a backtracking search meets first (greedy repetitions first). -/

/-- The regular-expression items the pattern uses. -/
inductive Item where
  /-- `^` under `(?m)`: at the start of the text or right after a line feed. -/
  | bol
  /-- `$` under `(?m)`: at the end of the text or right before a line feed. -/
  | eol
  /-- One character of a class. -/
  | one (p : Char → Bool)
  /-- Greedy `x*` over a class. -/
  | star (p : Char → Bool)
  /-- Greedy `x+` over a class. -/
  | plus (p : Char → Bool)
  /-- Start of capture group 1. -/
  | gopen
  /-- End of capture group 1. -/
  | gclose

/-- Greedy repetition of a class: take one more character when possible, and fall
back to the continuation `k` at the current position when that fails. -/
def starLoop {R : Type} (p : Char → Bool) (k : Option Char → Text → Option R) :
    Option Char → Text → Option R
  | prev, [] => k prev []
  | prev, c :: cs =>
    if p c then
      match starLoop p k (some c) cs with
      | some r => some r
      | none => k prev (c :: cs)
    else k prev (c :: cs)

/-- Match the items at the current position: `prev` is the character before it,
`rest` the text from it on, `cs` the text from the start of group 1 on, `cap` the
text captured by group 1. Returns the capture and the text left after the match. -/
def matchItems : List Item → Option Char → Text → Text → Text → Option (Text × Text)
  | [], _, rest, _, cap => some (cap, rest)
  | .bol :: is, prev, rest, cs, cap =>
    if prev = none ∨ prev = some '\n' then matchItems is prev rest cs cap else none
  | .eol :: is, prev, rest, cs, cap =>
    if rest = [] ∨ rest.head? = some '\n' then matchItems is prev rest cs cap else none
  | .one p :: is, _, rest, cs, cap =>
    match rest with
    | c :: r => if p c then matchItems is (some c) r cs cap else none
    | [] => none
  | .star p :: is, prev, rest, cs, cap =>
    starLoop p (fun prev1 rest1 => matchItems is prev1 rest1 cs cap) prev rest
  | .plus p :: is, _, rest, cs, cap =>
    match rest with
    | c :: r =>
      if p c then starLoop p (fun prev1 rest1 => matchItems is prev1 rest1 cs cap) (some c) r
      else none
    | [] => none
  | .gopen :: is, prev, rest, _, cap => matchItems is prev rest rest cap
  | .gclose :: is, prev, rest, cs, _ =>
    matchItems is prev rest cs (cs.take (cs.length - rest.length))

/-- Go `(*Regexp).FindStringSubmatch`: the leftmost match as `[whole, group 1]`, or
the empty slice when nothing matches. -/
def findStringSubmatch (re : List Item) : Option Char → Text → List Text
  | prev, [] =>
    match matchItems re prev [] [] [] with
    | some (cap, _) => [[], cap]
    | none => []
  | prev, c :: cs =>
    match matchItems re prev (c :: cs) [] [] with
    | some (cap, e) => [(c :: cs).take ((c :: cs).length - e.length), cap]
    | none => findStringSubmatch re (some c) cs

/-- The Perl class `\s` of Go's `regexp`: `[\t\n\f\r ]`. -/
def reSpace (c : Char) : Bool :=
  c = '\t' || c = '\n' || c = '\x0c' || c = '\r' || c = ' '

/-- The pattern `(?m)^#[^#]\s*(.+)$`. A negated class such as `[^#]` matches a line
feed; `.` does not. -/
def titleRe : List Item :=
  [.bol, .one (fun c => c = '#'), .one (fun c => c ≠ '#'), .star reSpace,
   .gopen, .plus (fun c => c ≠ '\n'), .gclose, .eol]

/-- The function `extractTitle` of `resume.go`. -/
def extractTitle (md : Text) : Text :=
  let matches_ := findStringSubmatch titleRe none md
  if matches_.length > 1 then trimSpace (matches_.getD 1 []) else "Resume".toList

/-- A line that begins with a single `#` followed, on the line, by a character other
than `#`. -/
def isLevelOneLine : Text → Bool
  | '#' :: c :: _ => c != '#'
  | _ => false

/-! ## `makeHTML` -/

/-- The constant `htmlPreamble`. -/
def htmlPreamble : Text :=
  ("<html lang=\"en\">\n<head>\n<meta charset=\"UTF-8\">\n<title>%s</title>\n<style>\n%s\n" ++
   "</style>\n</head>\n<body>\n<div id=\"resume\">\n").toList

/-- The constant `htmlPostamble`. -/
def htmlPostamble : Text := "</div>\n</body>\n</html>\n".toList

/-- Go `strings.Join` with an arbitrary separator. -/
def joinSep (sep : Text) : List Text → Text
  | [] => []
  | [a] => a
  | a :: b :: r => a ++ sep ++ joinSep sep (b :: r)

/-- What Go `fmt.Sprintf` appends for operands left over after the format. -/
def sprintfExtra (args : List Text) : Text :=
  "%!(EXTRA ".toList ++
    joinSep ", ".toList (args.map (fun a => "string=".toList ++ a)) ++ ")".toList

/-- Go `fmt.Sprintf` on string operands, for formats whose only verb is `%s`: each
`%s` is replaced by the next operand, copied as it is. -/
def sprintf : Text → List Text → Text
  | [], [] => []
  | [], a :: as => sprintfExtra (a :: as)
  | '%' :: 's' :: fmt, a :: as => a ++ sprintf fmt as
  | '%' :: 's' :: fmt, [] => "%!s(MISSING)".toList ++ sprintf fmt []
  | c :: fmt, as => c :: sprintf fmt as

/-- The CSS path `makeHTML` reads: the `--css` flag, or `resume.css` when unset. -/
def cssPath (cssFile : String) : String :=
  if cssFile ≠ "" then cssFile else "resume.css"

/-- The function `makeHTML` of `resume.go`. The flag `cssFile`, `os.ReadFile` and the
goldmark converter are parameters; a failed CSS read is replaced by the empty text
(the two warnings it logs are not part of the result). -/
def makeHTML (cssFile : String) (readFile : String → Except String Text)
    (convert : Text → Except String Text) (md : Text) : Except String Text :=
  let md := stripFrontmatter md
  let cssContent : Text :=
    match readFile (cssPath cssFile) with
    | .ok content => content
    | .error _ => []
  let title := extractTitle md
  match convert md with
  | .error err => .error ("markdown conversion failed: " ++ err)
  | .ok buf => .ok (sprintf htmlPreamble [title, cssContent] ++ buf ++ htmlPostamble)

/-! ## `findChrome` and `writePDF` -/

/-- The table `chromeGuesses`. -/
def chromeGuesses : String → Option (List String)
  | "darwin" => some
    ["/Applications/Chromium.app/Contents/MacOS/Chromium",
     "/Applications/Google Chrome Canary.app/Contents/MacOS/Google Chrome Canary",
     "/Applications/Google Chrome.app/Contents/MacOS/Google Chrome"]
  | "windows" => some
    ["C:\\Program Files (x86)\\Google\\Chrome\\Application\\chrome.exe",
     "C:\\Program Files\\Google\\Chrome\\Application\\chrome.exe"]
  | "linux" => some
    ["/usr/bin/google-chrome",
     "/usr/bin/chrome",
     "/usr/bin/chromium",
     "/usr/bin/chromium-browser",
     "/usr/local/bin/chrome",
     "/usr/local/bin/chromium"]
  | _ => none

/-- The list `guesses` of `findChrome`: the entry of the platform, or the entry of
`linux` when the table has none for it. -/
def platformGuesses (goos : String) : List String :=
  match chromeGuesses goos with
  | some g => g
  | none => (chromeGuesses "linux").getD []

/-- The `for _, path := range guesses` loop of `findChrome`; `stat p` tells whether
`os.Stat(p)` succeeds. -/
def firstGuess (stat : String → Bool) : List String → Except String String
  | [] => .error "could not find Chrome. Please set --chrome-path"
  | path :: rest => if stat path then .ok path else firstGuess stat rest

/-- The function `findChrome` of `resume.go`, over the flag `chromePath`, the
platform `goos` (`runtime.GOOS`) and the file system. -/
def findChrome (chromePath goos : String) (stat : String → Bool) : Except String String :=
  if chromePath ≠ "" then .ok chromePath
  else firstGuess stat (platformGuesses goos)

/-- A file system, as far as the program looks at it: which paths `os.Stat` finds. -/
structure FS where
  /-- Whether `os.Stat` succeeds on the path. -/
  stat : String → Bool

/-- How `cmd.Run()` under the five-second context ended. -/
inductive RunOutcome where
  | exited (code : Nat)
  | startFailed (err : String)
  | timedOut
  deriving DecidableEq

/-- The operating system around `writePDF`. -/
structure OS where
  /-- The platform, `runtime.GOOS`. -/
  goos : String
  /-- Go `base64.StdEncoding.EncodeToString`. -/
  base64 : Text → String
  /-- Go `os.MkdirTemp("", "resume-generator-*")`. -/
  mkdirTemp : FS → Except String (String × FS)
  /-- Running the executable with its arguments until it ends or is killed. -/
  run : String → List String → FS → RunOutcome × FS
  /-- Go `os.RemoveAll`. -/
  removeAll : String → FS → FS

/-- The argument list `writePDF` passes to the browser. -/
def chromeArgs (tempDir pdfPath dataURI : String) : List String :=
  ["--no-sandbox",
   "--headless",
   "--print-to-pdf-no-header",
   "--no-pdf-header-footer",
   "--enable-logging=stderr",
   "--log-level=2",
   "--in-process-gpu",
   "--disable-gpu",
   "--disable-software-rasterizer",
   "--disable-dev-shm-usage",
   "--disable-background-networking",
   "--disable-background-timer-throttling",
   "--disable-backgrounding-occluded-windows",
   "--disable-renderer-backgrounding",
   "--run-all-compositor-stages-before-draw",
   "--crash-dumps-dir=" ++ tempDir,
   "--user-data-dir=" ++ tempDir,
   "--print-to-pdf=" ++ pdfPath,
   dataURI]

/-- The function `writePDF` of `resume.go`: the result and the file system it leaves.
The outcome of the run is dropped (`_ = cmd.Run()`); the deferred `os.RemoveAll`
runs after the result is fixed. -/
def writePDF (os : OS) (chromePath : String) (htmlContent : Text) (pfx : String)
    (fs : FS) : Except String Unit × FS :=
  match findChrome chromePath os.goos fs.stat with
  | .error err => (.error err, fs)
  | .ok chrome =>
    let encoded := os.base64 htmlContent
    let dataURI := "data:text/html;base64," ++ encoded
    match os.mkdirTemp fs with
    | .error err => (.error ("failed to create temp dir: " ++ err), fs)
    | .ok (tempDir, fs1) =>
      let pdfPath := pfx ++ ".pdf"
      let args := chromeArgs tempDir pdfPath dataURI
      let fs2 := (os.run chrome args fs1).2
      let result : Except String Unit :=
        if fs2.stat pdfPath then .ok ()
        else .error ("PDF was not created at " ++ pdfPath)
      (result, os.removeAll tempDir fs2)

/-! ## Lemmas on lines -/

theorem splitLines_ne_nil (s : Text) : splitLines s ≠ [] := by
  induction s with
  | nil => simp [splitLines]
  | cons c cs ih =>
    unfold splitLines
    split
    · simp
    · split <;> simp

theorem splitLines_length_pos (s : Text) : 0 < (splitLines s).length :=
  List.length_pos.mpr (splitLines_ne_nil s)

theorem joinLines_cons_of_ne_nil (l : Text) {ls : List Text} (h : ls ≠ []) :
    joinLines (l :: ls) = l ++ '\n' :: joinLines ls := by
  cases ls with
  | nil => exact absurd rfl h
  | cons m ms => rfl

/-- `strings.Join` undoes `strings.Split`. -/
theorem joinLines_splitLines (s : Text) : joinLines (splitLines s) = s := by
  induction s with
  | nil => rfl
  | cons c cs ih =>
    unfold splitLines
    split
    · next h =>
      rw [joinLines_cons_of_ne_nil _ (splitLines_ne_nil cs), ih, h]
      rfl
    · split
      · next h => exact absurd h (splitLines_ne_nil cs)
      · next l ls h =>
        rw [h] at ih
        cases ls with
        | nil =>
          simp only [joinLines] at ih ⊢
          rw [ih]
        | cons m ms =>
          simp only [joinLines] at ih ⊢
          rw [← ih]
          rfl

theorem splitLines_of_no_newline {s : Text} (h : '\n' ∉ s) : splitLines s = [s] := by
  induction s with
  | nil => rfl
  | cons c cs ih =>
    have hc : c ≠ '\n' := fun e => h (by simp [e])
    have hcs : '\n' ∉ cs := fun e => h (by simp [e])
    simp [splitLines, hc, ih hcs]

/-- Splitting distributes over a line feed. -/
theorem splitLines_append_newline (a b : Text) :
    splitLines (a ++ '\n' :: b) = splitLines a ++ splitLines b := by
  induction a with
  | nil => simp [splitLines]
  | cons c cs ih =>
    by_cases hc : c = '\n'
    · simp [splitLines, hc, ih]
    · have h1 : splitLines (c :: cs ++ '\n' :: b) =
          match splitLines (cs ++ '\n' :: b) with
          | [] => [[c]]
          | l :: ls => (c :: l) :: ls := by
        simp [splitLines, hc]
      have h2 : splitLines (c :: cs) =
          match splitLines cs with
          | [] => [[c]]
          | l :: ls => (c :: l) :: ls := by
        simp [splitLines, hc]
      rw [h1, h2, ih]
      cases h : splitLines cs with
      | nil => exact absurd h (splitLines_ne_nil cs)
      | cons l ls => rfl

/-- Splitting a joined list whose lines (all but possibly the last) hold no line
feed gives the lines back, the last one split further. -/
theorem splitLines_joinLines_append (ls : List Text) (b : Text)
    (h : ∀ l ∈ ls, '\n' ∉ l) :
    splitLines (joinLines (ls ++ [b])) = ls ++ splitLines b := by
  induction ls with
  | nil => simp [joinLines]
  | cons l ls ih =>
    have hne : ls ++ [b] ≠ [] := by simp
    rw [List.cons_append, joinLines_cons_of_ne_nil _ hne, splitLines_append_newline,
      ih (fun x hx => h x (List.mem_cons_of_mem _ hx)),
      splitLines_of_no_newline (h l (List.mem_cons_self _ _))]
    rfl

theorem joinLines_length_cons_lt (l : Text) {ls : List Text} (h : ls ≠ []) :
    (joinLines ls).length < (joinLines (l :: ls)).length := by
  rw [joinLines_cons_of_ne_nil _ h]
  simp
  omega

theorem joinLines_drop_length_lt (ls : List Text) (n : Nat) (h0 : 0 < n)
    (hn : n < ls.length) : (joinLines (ls.drop n)).length < (joinLines ls).length := by
  induction n generalizing ls with
  | zero => omega
  | succ n ih =>
    cases ls with
    | nil => simp at hn
    | cons l ls =>
      simp only [List.length_cons] at hn
      have hne : ls ≠ [] := by
        intro e
        subst e
        simp at hn
      have h1 := joinLines_length_cons_lt l hne
      rw [List.drop_succ_cons]
      by_cases hn0 : n = 0
      · subst hn0
        simpa using h1
      · have := ih ls (by omega) (by omega)
        omega

/-! ## Lemmas on the closing-delimiter scan -/

theorem findEnd_eq_neg_one {ls : List Text} (i : Nat)
    (h : ∀ l ∈ ls, trimSpace l ≠ delim) : findEnd ls i = -1 := by
  induction ls generalizing i with
  | nil => rfl
  | cons l ls ih =>
    have hl := h l (List.mem_cons_self _ _)
    simp only [findEnd, hl, if_false]
    exact ih (i + 1) (fun x hx => h x (List.mem_cons_of_mem _ hx))

theorem findEnd_first {pre : List Text} {d : Text} (post : List Text) (i : Nat)
    (h : ∀ l ∈ pre, trimSpace l ≠ delim) (hd : trimSpace d = delim) :
    findEnd (pre ++ d :: post) i = ((i + pre.length : Nat) : Int) := by
  induction pre generalizing i with
  | nil => simp [findEnd, hd]
  | cons l ls ih =>
    have hl := h l (List.mem_cons_self _ _)
    have e : findEnd (l :: (ls ++ d :: post)) i = findEnd (ls ++ d :: post) (i + 1) := by
      simp only [findEnd, hl, if_false]
    rw [List.cons_append, e, ih (i + 1) (fun x hx => h x (List.mem_cons_of_mem _ hx))]
    simp only [List.length_cons]
    congr 1
    omega

/-- The scan either runs out (`-1`, no line trims to `---`) or stops at the first
line that trims to `---`. -/
theorem findEnd_spec (ls : List Text) (i : Nat) :
    (findEnd ls i = -1 ∧ ∀ l ∈ ls, trimSpace l ≠ delim) ∨
    ∃ pre d post, ls = pre ++ d :: post ∧ (∀ l ∈ pre, trimSpace l ≠ delim) ∧
      trimSpace d = delim ∧ findEnd ls i = ((i + pre.length : Nat) : Int) := by
  induction ls generalizing i with
  | nil => left; simp [findEnd]
  | cons l ls ih =>
    by_cases hl : trimSpace l = delim
    · right
      exact ⟨[], l, ls, rfl, by simp, hl, by simp [findEnd, hl]⟩
    · rcases ih (i + 1) with ⟨h1, h2⟩ | ⟨pre, d, post, h1, h2, h3, h4⟩
      · left
        refine ⟨by simp [findEnd, hl, h1], ?_⟩
        intro x hx
        rcases List.mem_cons.mp hx with rfl | hx
        · exact hl
        · exact h2 x hx
      · right
        refine ⟨l :: pre, d, post, by simp [h1], ?_, h3, ?_⟩
        · intro x hx
          rcases List.mem_cons.mp hx with rfl | hx
          · exact hl
          · exact h2 x hx
        · simp only [findEnd, hl, if_false, h4, List.length_cons]
          congr 1
          omega

/-! ## `stripFrontmatter`: unfolding lemmas -/

theorem stripFrontmatter_of_no_dashes {md : Text} (h : hasPrefix md delim = false) :
    stripFrontmatter md = md := by
  simp [stripFrontmatter, h]

theorem stripFrontmatter_of_no_closing {md : Text}
    (h : ∀ l ∈ (splitLines md).drop 1, trimSpace l ≠ delim) :
    stripFrontmatter md = md := by
  unfold stripFrontmatter
  split
  · rfl
  · simp only [findEnd_eq_neg_one 1 h]
    rw [if_neg]
    intro hc
    exact absurd hc.1 (by decide)

theorem stripFrontmatter_of_closing {md l0 d : Text} {mids post : List Text}
    (hp : hasPrefix md delim = true)
    (hs : splitLines md = l0 :: (mids ++ d :: post))
    (hm : ∀ l ∈ mids, trimSpace l ≠ delim) (hd : trimSpace d = delim) :
    stripFrontmatter md = if post = [] then md else joinLines post := by
  unfold stripFrontmatter
  simp only [hp, Bool.not_true, Bool.false_eq_true, if_false, hs, List.drop_succ_cons,
    List.drop_zero, findEnd_first post 1 hm hd, List.length_cons, List.length_append]
  by_cases hpost : post = []
  · subst hpost
    rw [if_neg, if_pos rfl]
    intro hc
    have := hc.2
    simp only [List.length_nil] at this
    omega
  · have hlen : 0 < post.length := List.length_pos.mpr hpost
    rw [if_pos, if_neg hpost]
    · have e : (((1 + mids.length : Nat) : Int) + 1).toNat = (mids.length + 1) + 1 := by
        omega
      rw [e, List.drop_succ_cons]
      have e2 : mids ++ d :: post = (mids ++ [d]) ++ post := by simp
      rw [e2]
      have e3 : mids.length + 1 = (mids ++ [d]).length := by simp
      rw [e3, List.drop_left]
    · constructor <;> omega

/-- The texts `stripFrontmatter` leaves alone are exactly those without a strippable
block; the others get strictly shorter. -/
theorem stripFrontmatter_eq_self_iff (t : Text) :
    stripFrontmatter t = t ↔ ¬ Strippable t := by
  constructor
  · rintro h ⟨hp, pre, d, post, hs, hpre, hpost, hd⟩
    cases pre with
    | nil => exact hpre rfl
    | cons l0 pre =>
      rcases findEnd_spec (pre ++ d :: post) 1 with ⟨_, h2⟩ | ⟨p2, d2, q2, e1, e2, e3, _⟩
      · exact h2 d (by simp) hd
      · have hs2 : splitLines t = l0 :: (p2 ++ d2 :: q2) := by rw [hs, List.cons_append, e1]
        have hq : q2 ≠ [] := by
          intro hq
          subst hq
          have hmem : d ∈ p2 := by
            have hl : (pre ++ d :: post).length = (p2 ++ [d2]).length := by rw [e1]
            have hpl : 0 < post.length := List.length_pos.mpr hpost
            have hlt : pre.length < p2.length := by
              simp only [List.length_append, List.length_cons, List.length_nil] at hl
              omega
            have hget : (pre ++ d :: post)[pre.length]? = (p2 ++ [d2])[pre.length]? := by
              rw [e1]
            rw [List.getElem?_append_right (le_refl _), List.getElem?_append_left hlt] at hget
            simp only [Nat.sub_self, List.getElem?_cons_zero] at hget
            exact List.getElem?_mem hget.symm
          exact e2 d hmem hd
        have hstrip := stripFrontmatter_of_closing hp hs2 e2 e3
        rw [if_neg hq] at hstrip
        have hlen : (joinLines q2).length < (joinLines (splitLines t)).length := by
          have := joinLines_drop_length_lt (splitLines t) (p2.length + 2) (by omega)
            (by
              rw [hs2]
              have := List.length_pos.mpr hq
              simp only [List.length_cons, List.length_append]
              omega)
          rw [hs2] at this ⊢
          have e : List.drop (p2.length + 2) (l0 :: (p2 ++ d2 :: q2)) = q2 := by
            rw [List.drop_succ_cons]
            have e2 : p2 ++ d2 :: q2 = (p2 ++ [d2]) ++ q2 := by simp
            have e3 : p2.length + 1 = (p2 ++ [d2]).length := by simp
            rw [e2, e3, List.drop_left]
          rwa [e] at this
        rw [joinLines_splitLines, ← hstrip, h] at hlen
        exact absurd hlen (lt_irrefl _)
  · intro hns
    by_cases hp : hasPrefix t delim = true
    · cases hs : splitLines t with
      | nil => exact absurd hs (splitLines_ne_nil t)
      | cons l0 rest =>
        rcases findEnd_spec rest 1 with ⟨_, h2⟩ | ⟨p2, d2, q2, e1, e2, e3, _⟩
        · exact stripFrontmatter_of_no_closing (by simpa [hs] using h2)
        · rw [e1] at hs
          rw [stripFrontmatter_of_closing hp hs e2 e3]
          by_cases hq : q2 = []
          · rw [if_pos hq]
          · exact absurd ⟨hp, l0 :: p2, d2, q2, by simp [hs], by simp, hq, e3⟩ hns
    · exact stripFrontmatter_of_no_dashes (by simpa using hp)



/-! ## Lemmas on the matcher -/

theorem starLoop_cons {R : Type} (p : Char → Bool) (k : Option Char → Text → Option R)
    (prev : Option Char) (c : Char) (cs : Text) :
    starLoop p k prev (c :: cs) =
      if p c then
        match starLoop p k (some c) cs with
        | some r => some r
        | none => k prev (c :: cs)
      else k prev (c :: cs) := rfl

/-- A greedy repetition takes the whole run `ws` when the run ends there and the
continuation succeeds after it. -/
theorem starLoop_greedy {R : Type} (p : Char → Bool) (k : Option Char → Text → Option R)
    (ws tail : Text) (r : R) (hws : ∀ c ∈ ws, p c = true)
    (htail : ∀ c ∈ tail.head?, p c = false)
    (hk : ∀ pv, k pv tail = some r) (prev : Option Char) :
    starLoop p k prev (ws ++ tail) = some r := by
  induction ws generalizing prev with
  | nil =>
    cases tail with
    | nil => simpa [starLoop] using hk prev
    | cons c t =>
      have hc : p c = false := htail c (by simp)
      rw [List.nil_append, starLoop_cons, hc]
      simpa using hk prev
  | cons w ws ih =>
    have hw := hws w (List.mem_cons_self _ _)
    rw [List.cons_append, starLoop_cons, hw,
      ih (fun c hc => hws c (List.mem_cons_of_mem _ hc)) (some w)]
    rfl

theorem reSpace_isSpace {c : Char} (h : reSpace c = true) : isSpace c = true := by
  simp only [reSpace, Bool.or_eq_true, decide_eq_true_eq] at h
  rcases h with (((h | h) | h) | h) | h <;> subst h <;> decide

theorem dropWhile_dropWhile_of_imp {p q : Char → Bool} (h : ∀ c, p c = true → q c = true)
    (l : Text) : (l.dropWhile p).dropWhile q = l.dropWhile q := by
  induction l with
  | nil => rfl
  | cons c l ih =>
    by_cases hp : p c = true
    · rw [List.dropWhile_cons_of_pos hp, List.dropWhile_cons_of_pos (h c hp), ih]
    · rw [List.dropWhile_cons_of_neg hp]

theorem trimSpace_dropWhile_reSpace (l : Text) :
    trimSpace (l.dropWhile reSpace) = trimSpace l := by
  unfold trimSpace
  rw [dropWhile_dropWhile_of_imp (fun c => reSpace_isSpace) l]

/-- The pattern matches at the start of `# ws body tail`, where `ws` is a run of
`\s`, `body` a non-empty run without line feed that does not start in `\s`, and
`tail` is empty or starts with a line feed; group 1 is `body`. -/
theorem matchItems_titleRe (ws body tail : Text) (x : Char)
    (hws : ∀ c ∈ ws, reSpace c = true) (hx : reSpace x = false)
    (hbody : ∀ c ∈ x :: body, c ≠ '\n')
    (htail : tail = [] ∨ tail.head? = some '\n') :
    matchItems titleRe none ('#' :: ' ' :: (ws ++ (x :: body ++ tail))) [] []
      = some (x :: body, tail) := by
  have hxn : x ≠ '\n' := hbody x (List.mem_cons_self _ _)
  have key : ∀ pv, matchItems [.gopen, .plus (fun c => c ≠ '\n'), .gclose, .eol] pv
      (x :: body ++ tail) [] [] = some (x :: body, tail) := by
    intro pv
    simp only [matchItems, List.cons_append, hxn, ne_eq, not_false_eq_true, decide_True,
      if_true]
    apply starLoop_greedy
    · intro c hc
      simpa using hbody c (List.mem_cons_of_mem _ hc)
    · intro c hc
      rcases htail with h | h
      · simp [h] at hc
      · rw [h] at hc
        simp at hc
        simp [← hc]
    · intro pv2
      have hlen : (x :: (body ++ tail)).length - tail.length = (x :: body).length := by
        simp
        omega
      have htake : List.take (x :: body).length (x :: (body ++ tail)) = x :: body := by
        exact List.take_left (x :: body) tail
      simp only [matchItems, htail, if_true, hlen, htake]
  simp only [titleRe, matchItems, true_or, if_true, decide_True, ne_eq]
  have h1 : (decide (¬ (' ' : Char) = '#')) = true := by decide
  simp only [h1, if_true]
  apply starLoop_greedy _ _ ws (x :: body ++ tail) _ hws
  · intro c hc
    simp at hc
    rw [← hc]
    exact hx
  · exact key

/-! ## `stripFrontmatter`: the claims -/

/-- C1 (as stated, refuted): stripping is not idempotent. A text with two
frontmatter blocks loses the first on the first pass and the second on the next. -/
theorem stripFrontmatter_not_idempotent :
    stripFrontmatter "---\na: 1\n---\n---\nb: 2\n---\nBody".toList
        = "---\nb: 2\n---\nBody".toList ∧
    stripFrontmatter (stripFrontmatter "---\na: 1\n---\n---\nb: 2\n---\nBody".toList)
        = "Body".toList ∧
    stripFrontmatter (stripFrontmatter "---\na: 1\n---\n---\nb: 2\n---\nBody".toList)
        ≠ stripFrontmatter "---\na: 1\n---\n---\nb: 2\n---\nBody".toList := by
  decide

/-- C1 (amended): stripping twice equals stripping once exactly when the text
returned by the first pass has no strippable block of its own, i.e. it does not
both start with `---` and hold a later, non-final line that trims to `---`. -/
theorem stripFrontmatter_idempotent_iff (s : Text) :
    stripFrontmatter (stripFrontmatter s) = stripFrontmatter s ↔
      ¬ (hasPrefix (stripFrontmatter s) delim = true ∧
          ∃ pre d post, splitLines (stripFrontmatter s) = pre ++ d :: post ∧
            pre ≠ [] ∧ post ≠ [] ∧ trimSpace d = delim) :=
  stripFrontmatter_eq_self_iff (stripFrontmatter s)

/-- C2: on a first line `---`, then lines `mids` none of which trims to `---`, then
a line `d` that trims to `---`, then a line feed and any text `B`, the result is
exactly `B`. -/
theorem stripFrontmatter_returns_body (mids : List Text) (d B : Text)
    (hmids : ∀ l ∈ mids, '\n' ∉ l ∧ trimSpace l ≠ delim)
    (hd : '\n' ∉ d) (hdt : trimSpace d = delim) :
    stripFrontmatter (joinLines (delim :: (mids ++ [d, B]))) = B := by
  have hsplit : splitLines (joinLines (delim :: (mids ++ [d, B])))
      = delim :: (mids ++ d :: splitLines B) := by
    have e : delim :: (mids ++ [d, B]) = (delim :: (mids ++ [d])) ++ [B] := by simp
    rw [e, splitLines_joinLines_append]
    · simp
    · intro l hl
      rcases List.mem_cons.mp hl with rfl | hl
      · decide
      · rcases List.mem_append.mp hl with hl | hl
        · exact (hmids l hl).1
        · rw [List.mem_singleton.mp hl]
          exact hd
  have hp : hasPrefix (joinLines (delim :: (mids ++ [d, B]))) delim = true := by
    rw [joinLines_cons_of_ne_nil _ (by simp)]
    simp [hasPrefix, delim]
  rw [stripFrontmatter_of_closing hp hsplit (fun l hl => (hmids l hl).2) hdt,
    if_neg (splitLines_ne_nil B), joinLines_splitLines]

/-- C2, witness: `"---\nkey: val\n---\nBody"` yields `"Body"`. -/
theorem stripFrontmatter_returns_body_witness :
    stripFrontmatter (joinLines (delim :: (["key: val".toList] ++ ["---".toList, "Body".toList])))
        = "Body".toList ∧
    joinLines (delim :: (["key: val".toList] ++ ["---".toList, "Body".toList]))
        = "---\nkey: val\n---\nBody".toList :=
  ⟨stripFrontmatter_returns_body ["key: val".toList] "---".toList "Body".toList
      (by decide) (by decide) (by decide), by decide⟩

/-- C3 (as stated, refuted): the first line `---abc` is not the three characters
`---`, yet the text is stripped, because the test is a prefix test. -/
theorem stripFrontmatter_prefix_counterexample :
    (splitLines "---abc\n---\nBody".toList).head? ≠ some delim ∧
    stripFrontmatter "---abc\n---\nBody".toList = "Body".toList ∧
    stripFrontmatter "---abc\n---\nBody".toList ≠ "---abc\n---\nBody".toList := by
  decide

/-- C3 (amended): a text that does not start with the three characters `---` is
returned unchanged. -/
theorem stripFrontmatter_id_without_dashes (md : Text) (h : hasPrefix md delim = false) :
    stripFrontmatter md = md :=
  stripFrontmatter_of_no_dashes h

/-- C3 (amended), witness. -/
theorem stripFrontmatter_id_without_dashes_witness :
    hasPrefix "# Jane\n---\nx\n---\ny".toList delim = false ∧
    stripFrontmatter "# Jane\n---\nx\n---\ny".toList = "# Jane\n---\nx\n---\ny".toList :=
  ⟨by decide, stripFrontmatter_id_without_dashes _ (by decide)⟩

/-- C4: a text that starts with `---` and in which no later line trims to `---`, or
in which the first later line that does is the last line, is returned unchanged
(the function is total: it has no error result). -/
theorem stripFrontmatter_unchanged (md : Text) (hp : hasPrefix md delim = true)
    (h : (∀ l ∈ (splitLines md).drop 1, trimSpace l ≠ delim) ∨
      ∃ l0 mids d, splitLines md = l0 :: (mids ++ [d]) ∧
        (∀ l ∈ mids, trimSpace l ≠ delim) ∧ trimSpace d = delim) :
    stripFrontmatter md = md := by
  rcases h with h | ⟨l0, mids, d, hs, hm, hd⟩
  · exact stripFrontmatter_of_no_closing h
  · rw [stripFrontmatter_of_closing hp hs hm hd, if_pos rfl]

/-- C4, witness: `"---\nkey: val\n---"` is returned as is. -/
theorem stripFrontmatter_unchanged_witness :
    stripFrontmatter "---\nkey: val\n---".toList = "---\nkey: val\n---".toList :=
  stripFrontmatter_unchanged "---\nkey: val\n---".toList (by decide)
    (Or.inr ⟨"---".toList, ["key: val".toList], "---".toList, by decide, by decide, by decide⟩)

/-! ## `extractTitle`: the claims -/

theorem dropWhile_of_exists_not {p : Char → Bool} (l : Text) (h : ∃ c ∈ l, p c = false) :
    ∃ x b, l.dropWhile p = x :: b ∧ p x = false := by
  induction l with
  | nil => simp at h
  | cons c l ih =>
    by_cases hp : p c = true
    · rw [List.dropWhile_cons_of_pos hp]
      apply ih
      obtain ⟨y, hy, hpy⟩ := h
      rcases List.mem_cons.mp hy with rfl | hy
      · rw [hp] at hpy
        exact absurd hpy (by simp)
      · exact ⟨y, hy, hpy⟩
    · rw [List.dropWhile_cons_of_neg hp]
      exact ⟨c, l, rfl, by simpa using hp⟩

/-- C5 (the code departs from the claim): the body `"#\nabc"` has no line that
begins with a single `#` followed on that line by a character other than `#`, yet
the title is `abc` and not the default: `[^#]` matched the line feed. -/
theorem extractTitle_newline_after_hash :
    (splitLines "#\nabc".toList).all (fun l => !isLevelOneLine l) = true ∧
    extractTitle "#\nabc".toList = "abc".toList ∧
    extractTitle "#\nabc".toList ≠ "Resume".toList := by
  decide

/-- C6: when the first line is `# ` followed by a text `T` without line feed and with
a character that is not white space, the title is `T` trimmed, whatever follows
that line. -/
theorem extractTitle_first_line (T rest : Text) (hnl : '\n' ∉ T)
    (hns : ∃ c ∈ T, isSpace c = false)
    (hrest : rest = [] ∨ ∃ R, rest = '\n' :: R) :
    extractTitle ("# ".toList ++ T ++ rest) = trimSpace T := by
  have hns2 : ∃ c ∈ T, reSpace c = false := by
    obtain ⟨c, hc, hsp⟩ := hns
    refine ⟨c, hc, ?_⟩
    cases h : reSpace c with
    | false => rfl
    | true => rw [reSpace_isSpace h] at hsp; exact absurd hsp (by simp)
  obtain ⟨x, body, hdrop, hx⟩ := dropWhile_of_exists_not T hns2
  have hT : T = T.takeWhile reSpace ++ (x :: body) := by
    rw [← hdrop, List.takeWhile_append_dropWhile]
  have hbody : ∀ c ∈ x :: body, c ≠ '\n' := by
    intro c hc e
    apply hnl
    rw [hT, ← e]
    exact List.mem_append_right _ hc
  have htail : rest = [] ∨ rest.head? = some '\n' := by
    rcases hrest with h | ⟨R, h⟩
    · exact Or.inl h
    · exact Or.inr (by simp [h])
  have hm := matchItems_titleRe (T.takeWhile reSpace) body rest x
    (fun c hc => (List.mem_takeWhile_imp hc)) hx hbody htail
  have e : "# ".toList ++ T ++ rest
      = '#' :: ' ' :: (T.takeWhile reSpace ++ (x :: body ++ rest)) := by
    conv_lhs => rw [hT]
    simp
  rw [e]
  simp only [extractTitle, findStringSubmatch, hm]
  simp only [List.length_cons, List.length_nil, List.getD_cons_succ, List.getD_cons_zero]
  rw [if_pos (by omega), ← hdrop, trimSpace_dropWhile_reSpace]

/-- C6, witness: `"# Jane Doe\n\nSome text"` yields `"Jane Doe"`. -/
theorem extractTitle_first_line_witness :
    extractTitle ("# ".toList ++ "Jane Doe".toList ++ "\n\nSome text".toList)
      = "Jane Doe".toList :=
  extractTitle_first_line "Jane Doe".toList "\n\nSome text".toList (by decide)
    ⟨'J', by decide, by decide⟩ (Or.inr ⟨"\nSome text".toList, by decide⟩)

/-! ## `makeHTML`: the claims -/

theorem sprintf_htmlPreamble (title css : Text) :
    sprintf htmlPreamble [title, css] =
      "<html lang=\"en\">\n<head>\n<meta charset=\"UTF-8\">\n<title>".toList ++ title ++
      "</title>\n<style>\n".toList ++ css ++
      "\n</style>\n</head>\n<body>\n<div id=\"resume\">\n".toList := by
  simp [htmlPreamble, sprintf]

/-- C7: with the CSS read returning `C` and the converter returning the fragment
`F`, the document is the head template with the title between `<title>` and
`</title>` and `C` inside the style block, then `F` right after the opening of the
`resume` container, then the closing template; title, `C` and `F` are copied as
they are. -/
theorem makeHTML_document (cssFile : String) (readFile : String → Except String Text)
    (convert : Text → Except String Text) (md C F : Text)
    (hcss : readFile (cssPath cssFile) = .ok C)
    (hconv : convert (stripFrontmatter md) = .ok F) :
    makeHTML cssFile readFile convert md = .ok
      ("<html lang=\"en\">\n<head>\n<meta charset=\"UTF-8\">\n<title>".toList ++
        extractTitle (stripFrontmatter md) ++
        "</title>\n<style>\n".toList ++ C ++
        "\n</style>\n</head>\n<body>\n<div id=\"resume\">\n".toList ++ F ++
        "</div>\n</body>\n</html>\n".toList) := by
  simp only [makeHTML, hcss, hconv, sprintf_htmlPreamble, htmlPostamble]

/-- C7, witness: `"# Test\nHello *world*"` with the CSS `body{color:red}`. -/
theorem makeHTML_document_witness :
    makeHTML "" (fun _ => .ok "body\x7bcolor:red\x7d".toList)
        (fun _ => .ok "<h1 id=\"test\">Test</h1>\n<p>Hello <em>world</em></p>\n".toList)
        "# Test\nHello *world*".toList = .ok
      ("<html lang=\"en\">\n<head>\n<meta charset=\"UTF-8\">\n<title>Test</title>\n<style>\n" ++
       "body\x7bcolor:red\x7d\n</style>\n</head>\n<body>\n<div id=\"resume\">\n" ++
       "<h1 id=\"test\">Test</h1>\n<p>Hello <em>world</em></p>\n" ++
       "</div>\n</body>\n</html>\n").toList :=
  (makeHTML_document "" (fun _ => .ok "body\x7bcolor:red\x7d".toList)
    (fun _ => .ok "<h1 id=\"test\">Test</h1>\n<p>Hello <em>world</em></p>\n".toList)
    "# Test\nHello *world*".toList _ _ rfl rfl).trans (congrArg Except.ok (by rfl))

/-- C10: a failed CSS read never makes `makeHTML` fail: the result is the one for a
read that returns the empty text, and when the converter accepts the input it is
the document with an empty style block. -/
theorem makeHTML_css_read_failure (cssFile : String)
    (readFile : String → Except String Text) (convert : Text → Except String Text)
    (md : Text) (err : String) (hcss : readFile (cssPath cssFile) = .error err) :
    makeHTML cssFile readFile convert md = makeHTML cssFile (fun _ => .ok []) convert md ∧
    ∀ F, convert (stripFrontmatter md) = .ok F →
      makeHTML cssFile readFile convert md = .ok
        ("<html lang=\"en\">\n<head>\n<meta charset=\"UTF-8\">\n<title>".toList ++
          extractTitle (stripFrontmatter md) ++
          "</title>\n<style>\n\n</style>\n</head>\n<body>\n<div id=\"resume\">\n".toList ++ F ++
          "</div>\n</body>\n</html>\n".toList) := by
  refine ⟨by simp only [makeHTML, hcss], ?_⟩
  intro F hconv
  simp only [makeHTML, hcss, hconv, sprintf_htmlPreamble, htmlPostamble]
  simp

/-- C10, witness: no CSS file at all. -/
theorem makeHTML_css_read_failure_witness :
    makeHTML "" (fun _ => .error "open resume.css: no such file or directory")
        (fun _ => .ok "<p>x</p>\n".toList) "x".toList = .ok
      ("<html lang=\"en\">\n<head>\n<meta charset=\"UTF-8\">\n<title>Resume</title>\n<style>\n\n" ++
       "</style>\n</head>\n<body>\n<div id=\"resume\">\n<p>x</p>\n</div>\n</body>\n</html>\n").toList :=
  ((makeHTML_css_read_failure "" (fun _ => .error "open resume.css: no such file or directory")
    (fun _ => .ok "<p>x</p>\n".toList) "x".toList _ rfl).2 _ rfl).trans
    (congrArg Except.ok (by decide))

/-! ## `findChrome` and `writePDF`: the claims -/

theorem firstGuess_eq_find (stat : String → Bool) (l : List String) :
    firstGuess stat l =
      match l.find? stat with
      | some p => .ok p
      | none => .error "could not find Chrome. Please set --chrome-path" := by
  induction l with
  | nil => rfl
  | cons p l ih =>
    cases h : stat p with
    | true => simp [firstGuess, List.find?, h]
    | false => simp [firstGuess, List.find?, h, ih]

theorem platformGuesses_unknown (goos : String) (h1 : goos ≠ "darwin")
    (h2 : goos ≠ "windows") (h3 : goos ≠ "linux") :
    platformGuesses goos = platformGuesses "linux" := by
  have : chromeGuesses goos = none := by
    unfold chromeGuesses
    split <;> simp_all
  simp only [platformGuesses, this]
  rfl

/-- C8: a non-empty override is returned whatever the file system holds; without
override the result is the first path of the platform's list that exists (the list
of `linux` for a platform other than `darwin`, `windows`, `linux`); and the call
fails exactly when the override is empty and no path of that list exists. -/
theorem findChrome_spec (chromePath goos : String) (stat : String → Bool) :
    (chromePath ≠ "" → findChrome chromePath goos stat = .ok chromePath) ∧
    (chromePath = "" →
      findChrome chromePath goos stat =
        match (platformGuesses goos).find? stat with
        | some p => .ok p
        | none => .error "could not find Chrome. Please set --chrome-path") ∧
    ((∃ err, findChrome chromePath goos stat = .error err) ↔
      chromePath = "" ∧ ∀ p ∈ platformGuesses goos, stat p = false) ∧
    (goos ≠ "darwin" → goos ≠ "windows" → goos ≠ "linux" →
      platformGuesses goos = platformGuesses "linux") ∧
    (∀ g, chromeGuesses goos = some g → platformGuesses goos = g) := by
  refine ⟨?_, ?_, ?_, platformGuesses_unknown goos, ?_⟩
  · intro h
    simp [findChrome, h]
  · intro h
    simp [findChrome, h, firstGuess_eq_find]
  · by_cases h : chromePath = ""
    · simp only [findChrome, h, ne_eq, not_true_eq_false, if_false, firstGuess_eq_find,
        true_and]
      cases hf : (platformGuesses goos).find? stat with
      | none =>
        simp only [exists_apply_eq_apply', true_iff]
        intro p hp
        have := List.find?_eq_none.mp hf p hp
        simpa using this
      | some p =>
        simp only [reduceCtorEq, exists_false, false_iff]
        intro hall
        have hmem := List.mem_of_find?_eq_some hf
        have hst := List.find?_some hf
        rw [hall p hmem] at hst
        exact absurd hst (by simp)
    · simp [findChrome, h]
  · intro g hg
    simp [platformGuesses, hg]

/-- C8, witness: on `linux` with only `/usr/bin/chromium` present. -/
theorem findChrome_spec_witness :
    findChrome "/opt/chrome" "linux" (fun _ => false) = .ok "/opt/chrome" ∧
    findChrome "" "freebsd" (fun p => p == "/usr/bin/chromium" || p == "/usr/local/bin/chrome")
      = .ok "/usr/bin/chromium" :=
  ⟨(findChrome_spec "/opt/chrome" "linux" (fun _ => false)).1 (by decide),
   ((findChrome_spec "" "freebsd"
      (fun p => p == "/usr/bin/chromium" || p == "/usr/local/bin/chrome")).2.1 rfl).trans
      (by rfl)⟩

/-- C9: once the executable is resolved and the temporary directory created,
`writePDF` succeeds exactly when `os.Stat` finds `pfx + ".pdf"` after the run,
whatever the outcome of the run; otherwise it fails with an error naming that
path. -/
theorem writePDF_success_iff (os : OS) (chromePath : String) (htmlContent : Text)
    (pfx : String) (fs fs1 : FS) (chrome tempDir : String)
    (hchrome : findChrome chromePath os.goos fs.stat = .ok chrome)
    (htemp : os.mkdirTemp fs = .ok (tempDir, fs1)) :
    ((writePDF os chromePath htmlContent pfx fs).1 = .ok () ↔
      (os.run chrome (chromeArgs tempDir (pfx ++ ".pdf")
        ("data:text/html;base64," ++ os.base64 htmlContent)) fs1).2.stat (pfx ++ ".pdf")
        = true) ∧
    ((os.run chrome (chromeArgs tempDir (pfx ++ ".pdf")
        ("data:text/html;base64," ++ os.base64 htmlContent)) fs1).2.stat (pfx ++ ".pdf")
        = false →
      (writePDF os chromePath htmlContent pfx fs).1
        = .error ("PDF was not created at " ++ (pfx ++ ".pdf"))) := by
  simp only [writePDF, hchrome, htemp]
  constructor
  · constructor
    · intro h
      by_contra hne
      simp only [hne, Bool.false_eq_true, if_false] at h
      exact absurd h (by simp)
    · intro h
      simp [h]
  · intro h
    simp [h]

/-- C9, witness: the browser exits with status 1 and has written `out.pdf`. -/
theorem writePDF_success_iff_witness :
    (writePDF
      { goos := "linux", base64 := fun _ => "", mkdirTemp := fun fs => .ok ("/tmp/rg-1", fs),
        run := fun _ _ fs => (.exited 1, { stat := fun p => p == "out.pdf" || fs.stat p }),
        removeAll := fun _ fs => fs }
      "/usr/bin/chrome" [] "out" { stat := fun _ => false }).1 = .ok () :=
  (writePDF_success_iff
      { goos := "linux", base64 := fun _ => "", mkdirTemp := fun fs => .ok ("/tmp/rg-1", fs),
        run := fun _ _ fs => (.exited 1, { stat := fun p => p == "out.pdf" || fs.stat p }),
        removeAll := fun _ fs => fs }
      "/usr/bin/chrome" [] "out" { stat := fun _ => false } { stat := fun _ => false }
      "/usr/bin/chrome" "/tmp/rg-1" rfl rfl).1.2 (by decide)

end Resume
